import Mathlib

/-!
Verification of the calibration-and-correction engine of the
LightSourceDecouple repository (`decouple_tool.py`, class `ProcessingWorker`).

The Python code is embedded shallowly:

* machine floating-point numbers become exact rationals (`ℚ`);
* images become total functions from pixel coordinates, whose values are
  meaningful on the index rectangle `[0, h) × [0, w)` of the image;
* the worker's `run` method becomes a pure function of an environment
  (`Env`) recording the inputs the thread observes: the cache state, the
  sampled calibration vectors, the user's confirmation answer, the number
  of input files, and a cancellation schedule (the index of the first
  cooperative cancellation check that observes the flag as set);
* `np.linalg.cond` (a floating-point singular-value computation) is an
  oracle field of the environment, used only through the comparison with
  the `1e15` threshold, exactly as in the source;
* `np.load` of the cache file may raise, which is modelled by an
  `Option`-valued cache content.
-/

namespace LSD

/-- A 3x3 rational matrix, indexed row-first: `M i j` is row `i`, column `j`. -/
abbrev Mat3 : Type := Fin 3 → Fin 3 → ℚ

/-- A sampled per-channel vector (a `ChannelVector` of the spec). -/
abbrev Vec3 : Type := Fin 3 → ℚ

/-- Determinant of a 3x3 matrix, by cofactor expansion along the first row. -/
def det3 (M : Mat3) : ℚ :=
  M 0 0 * (M 1 1 * M 2 2 - M 1 2 * M 2 1)
    - M 0 1 * (M 1 0 * M 2 2 - M 1 2 * M 2 0)
    + M 0 2 * (M 1 0 * M 2 1 - M 1 1 * M 2 0)

/-- Adjugate of a 3x3 matrix (transpose of the cofactor matrix). -/
def adj3 (M : Mat3) : Mat3 :=
  ![![M 1 1 * M 2 2 - M 1 2 * M 2 1, -(M 0 1 * M 2 2 - M 0 2 * M 2 1),
      M 0 1 * M 1 2 - M 0 2 * M 1 1],
    ![-(M 1 0 * M 2 2 - M 1 2 * M 2 0), M 0 0 * M 2 2 - M 0 2 * M 2 0,
      -(M 0 0 * M 1 2 - M 0 2 * M 1 0)],
    ![M 1 0 * M 2 1 - M 1 1 * M 2 0, -(M 0 0 * M 2 1 - M 0 1 * M 2 0),
      M 0 0 * M 1 1 - M 0 1 * M 1 0]]

/-- Exact matrix inverse (`np.linalg.inv` at line 110), via the adjugate
formula; the value is the true inverse whenever `det3 M ≠ 0`. -/
def inv3 (M : Mat3) : Mat3 := fun i j => adj3 M i j / det3 M

/-- Row normalization (lines 111-112): `row_sums = M_inv.sum(axis=1)` and
`M_Final = M_inv / row_sums`, i.e. each entry is divided by its row's sum. -/
def rowNormalize (A : Mat3) : Mat3 := fun i j => A i j / ∑ k : Fin 3, A i k

/-- The `CorrectionMatrix` computed from an `ObservationMatrix` (lines
110-112): the row-normalized inverse. -/
def correctionOf (Mobs : Mat3) : Mat3 := rowNormalize (inv3 Mobs)

/-- First-occurrence argmax of three values (`np.argmax` on a length-3 row,
lines 90-92): the least index attaining the maximum. -/
def argmax3 (a b c : ℚ) : Fin 3 :=
  if a < b then (if b < c then 2 else 1) else (if a < c then 2 else 0)

/-- The transposed stack `vecs = np.array(vecs).T` (line 89): `stackT l ch i`
is channel `ch` of the `i`-th sampled calibration vector. -/
def stackT (l : List Vec3) : Fin 3 → Fin 3 → ℚ :=
  fun ch i => (l.getD i (fun _ => 0)) ch

/-- The image index selected for colour role `c` (lines 90-92):
`idx_r = np.argmax(vecs[0, :])` and likewise for G and B. -/
def selIdx (vecs : Fin 3 → Fin 3 → ℚ) (c : Fin 3) : Fin 3 :=
  argmax3 (vecs c 0) (vecs c 1) (vecs c 2)

/-- The assembled `ObservationMatrix` (line 106):
`M_obs = np.column_stack((vecs[:, idx_r], vecs[:, idx_g], vecs[:, idx_b]))`,
so column `j` is the vector of the image selected for role `j`. -/
def obsOf (vecs : Fin 3 → Fin 3 → ℚ) : Mat3 :=
  fun ch j => vecs ch (selIdx vecs j)

/-! ### ROI sampler (`get_roi_average`, lines 153-162) -/

/-- Mean of an `a × b` region of a (per-channel) image:
`np.mean(roi, axis=(0, 1))`. -/
def meanImg (a b : ℕ) (p : ℕ → ℕ → Fin 3 → ℚ) (ch : Fin 3) : ℚ :=
  (∑ y ∈ Finset.range a, ∑ x ∈ Finset.range b, p y x ch) / (a * b)

/-- The ROI sampler (lines 153-162): subtract the black level, slice out the
centered 40%-60% window when both dimensions exceed 10 (Python
`int(h*0.4)` is `⌊0.4 h⌋ = 2*h/5` in exact arithmetic, and `int(h*0.6)` is
`3*h/5`), otherwise keep the full frame, then take the per-channel mean. -/
def get_roi_average (h w : ℕ) (img : ℕ → ℕ → Fin 3 → ℚ) (black : ℚ)
    (ch : Fin 3) : ℚ :=
  let arr : ℕ → ℕ → Fin 3 → ℚ := fun y x c => img y x c - black
  if 10 < h ∧ 10 < w then
    meanImg (3 * h / 5 - 2 * h / 5) (3 * w / 5 - 2 * w / 5)
      (fun y x => arr (2 * h / 5 + y) (2 * w / 5 + x)) ch
  else
    meanImg h w arr ch

/-! ### Batch corrector (`process_image`, lines 164-172) -/

/-- Clipping to the 16-bit range: `np.clip(x, 0, 65535)`. -/
def clip (q : ℚ) : ℚ := max 0 (min q 65535)

/-- The cast `.astype(np.uint16)` applied to a clipped value: truncation
toward zero, which on the nonnegative clipped values is the floor. -/
def toU16 (q : ℚ) : ℕ := q.floor.toNat

/-- The per-image correction (lines 164-172): subtract the black level,
flatten the `h × w × 3` array to a pixel list (`reshape(-1, 3)`, row-major,
so flat pixel `n` is at row `n / w`, column `n % w`), multiply by the
transpose of the correction matrix (`pixels @ M.T`), clip, reshape back
(`reshape(h, w, c)`, so position `(y, x)` reads flat pixel `y * w + x`),
and cast to 16-bit unsigned. -/
def process_image (h w : ℕ) (M : Mat3) (black : ℚ)
    (img : ℕ → ℕ → Fin 3 → ℚ) : ℕ → ℕ → Fin 3 → ℕ :=
  let arr : ℕ → ℕ → Fin 3 → ℚ := fun y x c => img y x c - black
  let pixels : ℕ → Fin 3 → ℚ := fun n => arr (n / w) (n % w)
  let pixels_corr : ℕ → Fin 3 → ℚ :=
    fun n i => clip (∑ j : Fin 3, pixels n j * M i j)
  let img_out : ℕ → ℕ → Fin 3 → ℚ := fun y x => pixels_corr (y * w + x)
  fun y x i => toU16 (img_out y x i)

/-! ### Mosaic compositor (`create_contact_sheet`, lines 174-208)

The claims quantify over the already-downsampled tiles (the `imgs` list of
line 183), so tiles are the model's starting point. -/

/-- A tile: a 3-channel 16-bit image of the given dimensions. -/
structure Tile where
  h : ℕ
  w : ℕ
  pix : ℕ → ℕ → Fin 3 → ℕ

/-- Maximum tile width over a list, accumulated as in lines 177 and 185
(`max_w` starts at 0 and is folded over the tiles). -/
def maxWList (ts : List Tile) : ℕ := ts.foldl (fun m t => max m t.w) 0

/-- Maximum tile height over a list (lines 177 and 186). -/
def maxHList (ts : List Tile) : ℕ := ts.foldl (fun m t => max m t.h) 0

/-- The region of the canvas written by pasting tile `p.1` with its top-left
corner at column `p.2.1`, row `p.2.2` (line 201:
`contact_sheet[y:y+h, x:x+w, :] = img`). -/
abbrev covers (p : Tile × ℕ × ℕ) (y x : ℕ) : Prop :=
  p.2.2 ≤ y ∧ y < p.2.2 + p.1.h ∧ p.2.1 ≤ x ∧ x < p.2.1 + p.1.w

/-- Pasting one placed tile onto a canvas (line 201); positions outside the
pasted region keep the old canvas value. -/
def pasteOne (base : ℕ → ℕ → Fin 3 → ℕ) (p : Tile × ℕ × ℕ) :
    ℕ → ℕ → Fin 3 → ℕ :=
  fun y x ch =>
    if covers p y x then p.1.pix (y - p.2.2) (x - p.2.1) ch else base y x ch

/-- Sequential pasting of a list of placed tiles (the loop of lines 195-201). -/
def pasteAll (l : List (Tile × ℕ × ℕ)) (base : ℕ → ℕ → Fin 3 → ℕ) :
    ℕ → ℕ → Fin 3 → ℕ :=
  l.foldl pasteOne base

/-- The placements generated by the enumeration loop (lines 195-200): tile
number `k` (counting from `k0`) goes to `x = (k % 6) * mw`,
`y = (k / 6) * mh`. -/
def placeList (mw mh : ℕ) : ℕ → List Tile → List (Tile × ℕ × ℕ)
  | _, [] => []
  | k, t :: rest => (t, k % 6 * mw, k / 6 * mh) :: placeList mw mh (k + 1) rest

/-- The contact-sheet compositor (lines 188-201): a zero-filled 16-bit canvas
of `rows = ceil(n / 6)` by 6 cells of the maximal tile size, with every tile
pasted top-left-aligned into its cell in enumeration order. -/
def create_contact_sheet (ts : List Tile) : Tile :=
  let cols := 6
  let rows := (ts.length + (cols - 1)) / cols
  { h := rows * maxHList ts
    w := cols * maxWList ts
    pix := pasteAll (placeList (maxWList ts) (maxHList ts) 0 ts)
      (fun _ _ _ => 0) }

/-! ### The worker run (`ProcessingWorker.run`, lines 53-151)

The environment abstracts what the thread observes.  Cooperative
cancellation checks are numbered in program order: check 0 is line 71,
checks 1-3 are the per-calibration-image checks of line 81, check 4 is the
resolution of the confirmation wait (lines 100-102; a cancellation that
preempts the wait forces the answer `False` with the flag set, exactly what
`cancel` at lines 41-44 does), and checks `5 + i` are the per-input-image
checks of line 125 followed by the check of line 137.  `cancelAt = some c`
means check `c` is the first that observes the flag as set; `none` means
the flag is never set during the run. -/

/-- The error messages the run can raise or emit, as structured data:
`countMismatch expected found` is the line-75 message (it names the expected
count 3 and the found count), `singularMatrix` is line 108, `userCancelled`
is line 103, `emptyInput` is line 120. -/
inductive ErrMsg where
  | countMismatch (expected found : ℕ)
  | singularMatrix
  | userCancelled
  | emptyInput
deriving DecidableEq

/-- Terminal signals of the worker: `finished_success` (line 146) and
`finished_error` (lines 103 and 151). -/
inductive Signal where
  | success (outDir : String)
  | failure (msg : ErrMsg)
deriving DecidableEq

/-- How the `run` method returned: normally after emitting success, after
emitting (or being about to emit) an error, or through one of the bare
`return` statements taken when the cancellation flag is observed. -/
inductive Outcome where
  | completed
  | errored (e : ErrMsg)
  | cancelledEarly
deriving DecidableEq

/-- The inputs one execution of `run` observes. -/
structure Env where
  /-- `use_cache_override` of the constructor (`None`, `False` or `True`). -/
  useCacheOverride : Option Bool
  /-- Whether `calibration_matrix.npy` exists (line 63). -/
  cacheExists : Bool
  /-- The result of `np.load` on the cache file: `some M`, or `none` when
  loading raises (the `except` of lines 66-67). -/
  cacheLoad : Option Mat3
  /-- The sampled `ChannelVector` of each TIFF file of the calibration
  directory, in enumeration order (`get_roi_average` per file, line 85). -/
  calibVecs : List Vec3
  /-- The answer the user eventually gives to the confirmation dialog. -/
  confirmAccept : Bool
  /-- The cancellation schedule (see above). -/
  cancelAt : Option ℕ
  /-- The number of selected input files (`len(self.input_files)`). -/
  nInput : ℕ
  /-- Oracle for `np.linalg.cond` (line 107). -/
  cond : Mat3 → ℚ
  /-- The output directory reported by `finished_success` (line 146). -/
  outDir : String

/-- Whether cancellation check number `k` observes the flag as set. -/
def cancelled (env : Env) (k : ℕ) : Bool :=
  match env.cancelAt with
  | none => false
  | some c => decide (c ≤ k)

/-- The matrix obtained from the cache short-circuit (lines 63-67): present
exactly when the override is `True`, the cache file exists and loading it
succeeds. -/
def cacheResult (env : Env) : Option Mat3 :=
  if env.useCacheOverride = some true ∧ env.cacheExists = true
  then env.cacheLoad else none

/-- Everything the model records about one execution of `run`. -/
structure RunResult where
  /-- The terminal signals emitted, in order. -/
  signals : List Signal
  /-- Whether `np.save` wrote the cache file (line 114). -/
  cacheWritten : Bool
  /-- How many calibration images were sampled (line 85). -/
  sampled : ℕ
  /-- The final `M_Final`, when one was obtained. -/
  matrix : Option Mat3
  /-- How many input images were processed (line 130). -/
  processed : ℕ
  /-- How the method returned. -/
  outcome : Outcome

/-- The batch loop of lines 124-134: before image `i` the flag is checked
(check `base + i`); returns whether the loop ran to completion and how many
images were processed. -/
def procLoop (env : Env) : ℕ → ℕ → Bool × ℕ
  | _, 0 => (true, 0)
  | i, r + 1 =>
    if cancelled env (5 + i) then (false, 0)
    else
      let p := procLoop env (i + 1) r
      (p.1, p.2 + 1)

/-- Steps 2-4 of `run` (lines 116-146), entered with the correction matrix
`M` in hand: fail on an empty input list, process the inputs under the
cancellation checks, and emit the success signal if never cancelled. -/
def runStep2 (env : Env) (M : Mat3) (cw : Bool) (smp : ℕ) : RunResult :=
  if env.nInput = 0 then
    ⟨[Signal.failure ErrMsg.emptyInput], cw, smp, some M, 0,
      Outcome.errored ErrMsg.emptyInput⟩
  else if (procLoop env 0 env.nInput).1 = false then
    ⟨[], cw, smp, some M, (procLoop env 0 env.nInput).2,
      Outcome.cancelledEarly⟩
  else if cancelled env (5 + env.nInput) then
    ⟨[], cw, smp, some M, (procLoop env 0 env.nInput).2,
      Outcome.cancelledEarly⟩
  else
    ⟨[Signal.success env.outDir], cw, smp, some M,
      (procLoop env 0 env.nInput).2, Outcome.completed⟩

/-- The boolean `_wait_for_user_choice` returns at line 101: `False` when
the wait was preempted by `cancel` (lines 41-44), otherwise the user's
answer. -/
def waitChoice (env : Env) : Bool :=
  if cancelled env 4 then false else env.confirmAccept

/-- The recomputation branch of step 1 (lines 70-114) followed by steps 2-4:
cancellation check, count check, sampling loop, confirmation wait,
condition-number check, inversion, normalization, cache write. -/
def recompute (env : Env) : RunResult :=
  if cancelled env 0 then ⟨[], false, 0, none, 0, Outcome.cancelledEarly⟩
  else if env.calibVecs.length ≠ 3 then
    ⟨[Signal.failure (ErrMsg.countMismatch 3 env.calibVecs.length)], false, 0,
      none, 0, Outcome.errored (ErrMsg.countMismatch 3 env.calibVecs.length)⟩
  else if cancelled env 1 then ⟨[], false, 0, none, 0, Outcome.cancelledEarly⟩
  else if cancelled env 2 then ⟨[], false, 1, none, 0, Outcome.cancelledEarly⟩
  else if cancelled env 3 then ⟨[], false, 2, none, 0, Outcome.cancelledEarly⟩
  else if waitChoice env = false then
    if cancelled env 4 = false then
      ⟨[Signal.failure ErrMsg.userCancelled], false, 3, none, 0,
        Outcome.errored ErrMsg.userCancelled⟩
    else ⟨[], false, 3, none, 0, Outcome.cancelledEarly⟩
  else if env.cond (obsOf (stackT env.calibVecs)) > 1000000000000000 then
    ⟨[Signal.failure ErrMsg.singularMatrix], false, 3, none, 0,
      Outcome.errored ErrMsg.singularMatrix⟩
  else
    runStep2 env (correctionOf (obsOf (stackT env.calibVecs))) true 3

/-- The whole of `ProcessingWorker.run` (lines 53-151). -/
def run (env : Env) : RunResult :=
  match cacheResult env with
  | some M => runStep2 env M false 0
  | none => recompute env

/-! ### Basic lemmas about the run model -/

/-- A check earlier in program order cannot observe the flag when a later
check does not: the flag is only ever set, never cleared. -/
theorem cancelled_mono (env : Env) {j k : ℕ} (hjk : j ≤ k)
    (h : cancelled env k = false) : cancelled env j = false := by
  unfold cancelled at h ⊢
  cases hca : env.cancelAt with
  | none => rfl
  | some c =>
    rw [hca] at h
    simp only [decide_eq_false_iff_not, not_le] at h ⊢
    omega

/-- Steps 2-4 always carry the matrix they were entered with. -/
theorem runStep2_matrix (env : Env) (M : Mat3) (cw : Bool) (smp : ℕ) :
    (runStep2 env M cw smp).matrix = some M := by
  unfold runStep2
  repeat first | rfl | split

/-- Steps 2-4 never touch the cache-written flag. -/
theorem runStep2_cacheWritten (env : Env) (M : Mat3) (cw : Bool) (smp : ℕ) :
    (runStep2 env M cw smp).cacheWritten = cw := by
  unfold runStep2
  repeat first | rfl | split

/-- Steps 2-4 never sample further calibration images. -/
theorem runStep2_sampled (env : Env) (M : Mat3) (cw : Bool) (smp : ℕ) :
    (runStep2 env M cw smp).sampled = smp := by
  unfold runStep2
  repeat first | rfl | split

/-- The only signals steps 2-4 can emit: none (a cancelled return), the
empty-input failure, or the success signal. -/
theorem runStep2_signals (env : Env) (M : Mat3) (cw : Bool) (smp : ℕ) :
    (runStep2 env M cw smp).signals = [] ∨
    (runStep2 env M cw smp).signals = [Signal.failure ErrMsg.emptyInput] ∨
    (runStep2 env M cw smp).signals = [Signal.success env.outDir] := by
  unfold runStep2
  repeat first | (left; rfl) | (right; left; rfl) | (right; right; rfl) | split

/-- With no cancellation, the batch loop runs to completion. -/
theorem procLoop_completes (env : Env) (h : env.cancelAt = none) :
    ∀ r i, (procLoop env i r).1 = true := by
  intro r
  induction r with
  | zero => intro i; rfl
  | succ r ih =>
    intro i
    unfold procLoop
    have : cancelled env (5 + i) = false := by unfold cancelled; rw [h]
    rw [this]
    simp only [Bool.false_eq_true, if_false]
    exact ih (i + 1)

/-- C1 row-sum core: the row-normalization of lines 111-112 makes every row
with a nonzero pre-normalization sum add up to exactly 1. -/
theorem rowNormalize_sum (A : Mat3) (i : Fin 3)
    (h : (∑ k : Fin 3, A i k) ≠ 0) :
    ∑ j : Fin 3, rowNormalize A i j = 1 := by
  unfold rowNormalize
  rw [← Finset.sum_div]
  exact div_self h

/-- A run that misses the cache reduces to the recomputation branch. -/
theorem run_of_cache_miss (env : Env) (hcache : cacheResult env = none) :
    run env = recompute env := by
  unfold run
  rw [hcache]

/-- A recomputation that is never cancelled up to the confirmation wait,
sees 3 calibration images, is confirmed, and passes the condition-number
check, proceeds to steps 2-4 with the row-normalized inverse of the
observation matrix, having written the cache. -/
theorem recompute_ok (env : Env)
    (hcancel : cancelled env 4 = false)
    (hlen : env.calibVecs.length = 3)
    (haccept : env.confirmAccept = true)
    (hcond : ¬ env.cond (obsOf (stackT env.calibVecs)) > 1000000000000000) :
    recompute env =
      runStep2 env (correctionOf (obsOf (stackT env.calibVecs))) true 3 := by
  have h0 : cancelled env 0 = false := cancelled_mono env (by omega) hcancel
  have h1 : cancelled env 1 = false := cancelled_mono env (by omega) hcancel
  have h2 : cancelled env 2 = false := cancelled_mono env (by omega) hcancel
  have h3 : cancelled env 3 = false := cancelled_mono env (by omega) hcancel
  unfold recompute waitChoice
  simp [h0, h1, h2, h3, hcancel, hlen, haccept, hcond]

/-! ### C1: row sums of the correction matrix -/

/-- C1: for every recomputing calibration run — cache miss, no cancellation
through the confirmation wait, exactly 3 calibration images, confirmation
accepted, condition-number check passed — whose `ObservationMatrix` is
invertible and whose inverse has no zero-sum row, the resulting
`CorrectionMatrix` is the row-normalized inverse, and every one of its rows
sums to exactly 1 (each row of the inverse is divided by its own sum). -/
theorem c1_correction_rows_sum_one (env : Env)
    (hcache : cacheResult env = none)
    (hcancel : cancelled env 4 = false)
    (hlen : env.calibVecs.length = 3)
    (haccept : env.confirmAccept = true)
    (hcond : ¬ env.cond (obsOf (stackT env.calibVecs)) > 1000000000000000)
    (hdet : det3 (obsOf (stackT env.calibVecs)) ≠ 0)
    (hrows : ∀ i : Fin 3,
      (∑ k : Fin 3, inv3 (obsOf (stackT env.calibVecs)) i k) ≠ 0) :
    (run env).matrix = some (correctionOf (obsOf (stackT env.calibVecs))) ∧
    ∀ i : Fin 3,
      ∑ j : Fin 3, correctionOf (obsOf (stackT env.calibVecs)) i j = 1 := by
  refine ⟨?_, fun i => rowNormalize_sum _ i (hrows i)⟩
  rw [run_of_cache_miss env hcache, recompute_ok env hcancel hlen haccept hcond]
  exact runStep2_matrix env _ true 3

/-- A red-dominant sampled calibration vector, used by concrete runs. -/
def vR : Vec3 := ![4, 1, 1]

/-- A green-dominant sampled calibration vector. -/
def vG : Vec3 := ![1, 4, 1]

/-- A blue-dominant sampled calibration vector. -/
def vB : Vec3 := ![1, 1, 4]

/-- A concrete environment: cache miss, three well-separated calibration
vectors, user confirms, no cancellation, one input image. -/
def envW : Env :=
  { useCacheOverride := none
    cacheExists := false
    cacheLoad := none
    calibVecs := [vR, vG, vB]
    confirmAccept := true
    cancelAt := none
    nInput := 1
    cond := fun _ => 0
    outDir := "out" }

/-- Evaluation of the observation matrix assembled from the `envW`
calibration vectors: each image is selected for the channel it dominates. -/
theorem obs_envW :
    obsOf (stackT envW.calibVecs) = ![![4, 1, 1], ![1, 4, 1], ![1, 1, 4]] := by
  funext ch j
  fin_cases ch <;> fin_cases j <;>
    norm_num [obsOf, stackT, selIdx, argmax3, envW, vR, vG, vB]

/-- The possible outcomes of steps 2-4: the empty-input error, a cancelled
return, or normal completion. -/
theorem runStep2_outcome (env : Env) (M : Mat3) (cw : Bool) (smp : ℕ) :
    (runStep2 env M cw smp).outcome = Outcome.errored ErrMsg.emptyInput ∨
    (runStep2 env M cw smp).outcome = Outcome.cancelledEarly ∨
    (runStep2 env M cw smp).outcome = Outcome.completed := by
  unfold runStep2
  repeat first | (left; rfl) | (right; left; rfl) | (right; right; rfl) | split

/-- A recomputation that reaches the condition-number check and fails it
raises the singular-matrix error: one failure signal, no cache write, no
matrix. -/
theorem recompute_singular (env : Env)
    (hcancel : cancelled env 4 = false)
    (hlen : env.calibVecs.length = 3)
    (haccept : env.confirmAccept = true)
    (hcond : env.cond (obsOf (stackT env.calibVecs)) > 1000000000000000) :
    recompute env =
      ⟨[Signal.failure ErrMsg.singularMatrix], false, 3, none, 0,
        Outcome.errored ErrMsg.singularMatrix⟩ := by
  have h0 : cancelled env 0 = false := cancelled_mono env (by omega) hcancel
  have h1 : cancelled env 1 = false := cancelled_mono env (by omega) hcancel
  have h2 : cancelled env 2 = false := cancelled_mono env (by omega) hcancel
  have h3 : cancelled env 3 = false := cancelled_mono env (by omega) hcancel
  unfold recompute waitChoice
  simp [h0, h1, h2, h3, hcancel, hlen, haccept, hcond]

/-- Witness for C1 at the concrete environment `envW`. -/
theorem c1_witness :
    (run envW).matrix = some (correctionOf (obsOf (stackT envW.calibVecs))) ∧
    ∀ i : Fin 3,
      ∑ j : Fin 3, correctionOf (obsOf (stackT envW.calibVecs)) i j = 1 :=
  c1_correction_rows_sum_one envW (by decide) (by decide) (by decide)
    (by decide) (by norm_num [envW])
    (by rw [obs_envW]; norm_num [det3, Matrix.vecHead, Matrix.vecTail])
    (by
      rw [obs_envW]
      intro i
      fin_cases i <;> rw [Fin.sum_univ_three] <;>
        norm_num [inv3, adj3, det3, Matrix.vecHead, Matrix.vecTail])

/-! ### C3: calibration count check -/

/-- C3: a run that misses the cache, is not cancelled before the
enumeration, and finds a TIFF count other than 3 fails with the
count-mismatch error naming the expected count 3 and the found count, before
sampling any image and without writing the cache. -/
theorem c3_count_mismatch (env : Env)
    (hcache : cacheResult env = none)
    (hcancel : cancelled env 0 = false)
    (hlen : env.calibVecs.length ≠ 3) :
    (run env).signals =
      [Signal.failure (ErrMsg.countMismatch 3 env.calibVecs.length)] ∧
    (run env).sampled = 0 ∧ (run env).cacheWritten = false := by
  rw [run_of_cache_miss env hcache]
  unfold recompute
  rw [hcancel]
  simp [hlen]

/-- A concrete environment with only two calibration images and no cache. -/
def envC3 : Env :=
  { envW with calibVecs := [vR, vG] }

/-- Witness for C3 at the concrete environment `envC3`. -/
theorem c3_witness :
    (run envC3).signals =
      [Signal.failure (ErrMsg.countMismatch 3 envC3.calibVecs.length)] ∧
    (run envC3).sampled = 0 ∧ (run envC3).cacheWritten = false :=
  c3_count_mismatch envC3 (by decide) (by decide) (by decide)

/-! ### C4: condition-number check -/

/-- C4: a recomputing run that passes the confirmation checkpoint fails with
the singular-matrix error exactly when the condition number of the assembled
observation matrix exceeds 1e15, and on failure it emits that single failure
signal, writes no cache file, and never forms the correction matrix. -/
theorem c4_singular_exactly_when (env : Env)
    (hcache : cacheResult env = none)
    (hcancel : cancelled env 4 = false)
    (hlen : env.calibVecs.length = 3)
    (haccept : env.confirmAccept = true) :
    ((run env).outcome = Outcome.errored ErrMsg.singularMatrix ↔
      env.cond (obsOf (stackT env.calibVecs)) > 1000000000000000) ∧
    (env.cond (obsOf (stackT env.calibVecs)) > 1000000000000000 →
      (run env).signals = [Signal.failure ErrMsg.singularMatrix] ∧
      (run env).cacheWritten = false ∧ (run env).matrix = none) := by
  rw [run_of_cache_miss env hcache]
  by_cases hcond : env.cond (obsOf (stackT env.calibVecs)) > 1000000000000000
  · rw [recompute_singular env hcancel hlen haccept hcond]
    exact ⟨by simp [hcond], fun _ => ⟨rfl, rfl, rfl⟩⟩
  · rw [recompute_ok env hcancel hlen haccept hcond]
    refine ⟨⟨fun h => ?_, fun h => absurd h hcond⟩, fun h => absurd h hcond⟩
    rcases runStep2_outcome env (correctionOf (obsOf (stackT env.calibVecs)))
        true 3 with h' | h' | h' <;> rw [h'] at h <;> simp at h

/-- A concrete environment whose condition-number oracle reports an
ill-conditioned observation matrix. -/
def envC4 : Env :=
  { envW with cond := fun _ => 10000000000000000 }

/-- Witness for C4 at the concrete environment `envC4`. -/
theorem c4_witness :
    ((run envC4).outcome = Outcome.errored ErrMsg.singularMatrix ↔
      envC4.cond (obsOf (stackT envC4.calibVecs)) > 1000000000000000) ∧
    (envC4.cond (obsOf (stackT envC4.calibVecs)) > 1000000000000000 →
      (run envC4).signals = [Signal.failure ErrMsg.singularMatrix] ∧
      (run envC4).cacheWritten = false ∧ (run envC4).matrix = none) :=
  c4_singular_exactly_when envC4 (by decide) (by decide) (by decide)
    (by decide)

/-! ### C7: one terminal signal per run -/

/-- A concrete environment whose cancellation flag is already set at the
first cooperative check. -/
def envC7 : Env :=
  { envW with cancelAt := some 0 }

/-- C7 counterexample: a run whose cancellation flag is set before the first
check ends (through the bare `return` of line 71) without emitting any
terminal signal at all, refuting "exactly one terminal signal per run,
including cancellation". -/
theorem c7_counterexample :
    (run envC7).outcome = Outcome.cancelledEarly ∧
    (run envC7).signals.length = 0 := by
  constructor <;> rfl

/-- Steps 2-4 of a never-cancelled run emit exactly one terminal signal. -/
theorem runStep2_signals_length (env : Env) (M : Mat3) (cw : Bool) (smp : ℕ)
    (h : env.cancelAt = none) :
    (runStep2 env M cw smp).signals.length = 1 := by
  have hp : (procLoop env 0 env.nInput).1 = true :=
    procLoop_completes env h env.nInput 0
  have hc : cancelled env (5 + env.nInput) = false := by
    unfold cancelled; rw [h]
  by_cases h0 : env.nInput = 0 <;> simp [runStep2, h0, hp, hc]

/-- C7 amended: every run during which the cancellation flag is never set
emits exactly one terminal signal; a cancelled run instead returns without
emitting any. -/
theorem c7_amended_one_signal (env : Env) (h : env.cancelAt = none) :
    (run env).signals.length = 1 := by
  have hc : ∀ k, cancelled env k = false := fun k => by
    unfold cancelled; rw [h]
  unfold run
  cases hca : cacheResult env with
  | some M => exact runStep2_signals_length env M false 0 h
  | none =>
    unfold recompute waitChoice
    rw [hc 0, hc 1, hc 2, hc 3, hc 4]
    by_cases hl : env.calibVecs.length = 3 <;>
      cases hacc : env.confirmAccept <;>
        by_cases hcond :
            env.cond (obsOf (stackT env.calibVecs)) > 1000000000000000 <;>
          simp [hl, hacc, hcond, runStep2_signals_length env _ _ _ h]

/-- Witness for the amended C7 at the concrete environment `envW`. -/
theorem c7_witness : (run envW).signals.length = 1 :=
  c7_amended_one_signal envW (by decide)

/-! ### C8: cancellation before the confirmation checkpoint -/

/-- C8: if the cancellation flag is set at or before the resolution of the
confirmation wait (check 4), the recomputing run ends as a cancelled,
non-error return: the wait is released with answer `False`, no terminal
signal (in particular no failure) is emitted, and no cache file is
written. -/
theorem c8_cancel_before_confirm (env : Env) (c : ℕ)
    (hcache : cacheResult env = none)
    (hca : env.cancelAt = some c) (hc4 : c ≤ 4)
    (hlen : env.calibVecs.length = 3) :
    (run env).outcome = Outcome.cancelledEarly ∧
    (run env).signals = [] ∧ (run env).cacheWritten = false := by
  rw [run_of_cache_miss env hcache]
  have hcan : ∀ k, cancelled env k = decide (c ≤ k) := fun k => by
    unfold cancelled; rw [hca]
  unfold recompute waitChoice
  rw [hcan 0, hcan 1, hcan 2, hcan 3, hcan 4]
  interval_cases c <;> simp [hlen]

/-- A concrete environment cancelled during the confirmation wait. -/
def envC8 : Env :=
  { envW with cancelAt := some 4 }

/-- Witness for C8 at the concrete environment `envC8`. -/
theorem c8_witness :
    (run envC8).outcome = Outcome.cancelledEarly ∧
    (run envC8).signals = [] ∧ (run envC8).cacheWritten = false :=
  c8_cancel_before_confirm envC8 4 (by decide) (by decide) (by decide)
    (by decide)

/-! ### C9: the cache short-circuit -/

/-- A concrete environment where the override is `UseCache` and the cache
file exists, but loading it raises (a corrupt cache), with only two
calibration images in the directory. -/
def envC9 : Env :=
  { envW with
    useCacheOverride := some true
    cacheExists := true
    cacheLoad := none
    calibVecs := [vR, vG] }

/-- C9 counterexample: with the cache file present and the override
`UseCache`, but a cache whose load raises, the run does not return a cached
matrix and does not skip the count check — it falls through to
recomputation and fails the count check on the directory's two images. -/
theorem c9_counterexample :
    (run envC9).signals = [Signal.failure (ErrMsg.countMismatch 3 2)] ∧
    (run envC9).matrix = none := by
  constructor <;> rfl

/-- C9 amended: when the cache file exists, the override is `UseCache` and
the load succeeds, the run returns the cached matrix and skips sampling, the
cache write, and every calibration failure, regardless of the calibration
directory's contents. -/
theorem c9_cache_short_circuit (env : Env) (M : Mat3)
    (hover : env.useCacheOverride = some true)
    (hex : env.cacheExists = true)
    (hload : env.cacheLoad = some M) :
    (run env).matrix = some M ∧ (run env).sampled = 0 ∧
    (run env).cacheWritten = false ∧
    ∀ e : ErrMsg, Signal.failure e ∈ (run env).signals →
      e = ErrMsg.emptyInput := by
  have hres : cacheResult env = some M := by
    unfold cacheResult; rw [hover, hex, hload]; simp
  have hrun : run env = runStep2 env M false 0 := by unfold run; rw [hres]
  rw [hrun]
  refine ⟨runStep2_matrix _ _ _ _, runStep2_sampled _ _ _ _,
    runStep2_cacheWritten _ _ _ _, ?_⟩
  intro e he
  rcases runStep2_signals env M false 0 with h | h | h <;>
    rw [h] at he <;> simp_all

/-- A 3x3 matrix standing for a successfully loaded cache file. -/
def cachedM0 : Mat3 := fun i j => if i = j then 1 else 0

/-- A concrete environment whose cache file loads successfully while the
calibration directory holds only two images. -/
def envC9ok : Env :=
  { envC9 with cacheLoad := some cachedM0 }

/-- Witness for the amended C9 at the concrete environment `envC9ok`. -/
theorem c9_witness :
    (run envC9ok).matrix = some cachedM0 ∧ (run envC9ok).sampled = 0 ∧
    (run envC9ok).cacheWritten = false ∧
    ∀ e : ErrMsg, Signal.failure e ∈ (run envC9ok).signals →
      e = ErrMsg.emptyInput :=
  c9_cache_short_circuit envC9ok cachedM0 rfl rfl rfl

/-! ### C5: per-channel argmax selection -/

/-- The value `np.argmax` returns on a 3-vector is the maximum. -/
theorem argmax3_is_max (a b c : ℚ) :
    ∀ i : Fin 3, ![a, b, c] i ≤ ![a, b, c] (argmax3 a b c) := by
  intro i
  unfold argmax3
  split_ifs with h1 h2 h3 <;> fin_cases i <;> simp <;> linarith

/-- `np.argmax` resolves ties to the first index attaining the maximum. -/
theorem argmax3_is_first (a b c : ℚ) :
    ∀ i : Fin 3, ![a, b, c] (argmax3 a b c) ≤ ![a, b, c] i →
      argmax3 a b c ≤ i := by
  intro i
  unfold argmax3
  split_ifs with h1 h2 h3 <;> fin_cases i <;> intro hle <;> simp at hle ⊢ <;>
    first
      | rfl
      | exact Fin.zero_le _
      | decide
      | (exfalso; linarith)

/-- C5: column `c` of the assembled observation matrix is the sampled vector
of the image whose channel-`c` value is maximal among the three images, with
ties resolved to the earliest image in enumeration order; nothing constrains
the indices selected for different channels to be distinct. -/
theorem c5_obs_columns (vecs : Fin 3 → Fin 3 → ℚ) (c : Fin 3) :
    (∀ ch : Fin 3, obsOf vecs ch c = vecs ch (selIdx vecs c)) ∧
    (∀ i : Fin 3, vecs c i ≤ vecs c (selIdx vecs c)) ∧
    (∀ i : Fin 3, vecs c (selIdx vecs c) ≤ vecs c i → selIdx vecs c ≤ i) := by
  have hv : ∀ i : Fin 3, ![vecs c 0, vecs c 1, vecs c 2] i = vecs c i := by
    intro i; fin_cases i <;> simp
  refine ⟨fun ch => rfl, fun i => ?_, fun i hle => ?_⟩
  · have h := argmax3_is_max (vecs c 0) (vecs c 1) (vecs c 2) i
    rw [hv, hv] at h
    exact h
  · have h := argmax3_is_first (vecs c 0) (vecs c 1) (vecs c 2) i
    rw [hv, hv] at h
    exact h hle

/-- Witness for C5 at the `envW` calibration vectors: the red column really
is the red-dominant image, and the tie-free selected index is minimal. -/
theorem c5_witness :
    obsOf (stackT envW.calibVecs) 0 0 =
      stackT envW.calibVecs 0 (selIdx (stackT envW.calibVecs) 0) ∧
    selIdx (stackT envW.calibVecs) 0 ≤ 0 :=
  ⟨(c5_obs_columns (stackT envW.calibVecs) 0).1 0,
    (c5_obs_columns (stackT envW.calibVecs) 0).2.2 0
      (by norm_num [stackT, selIdx, argmax3, envW, vR, vG, vB])⟩

/-! ### C6: the ROI sampler -/

/-- Reindexing a 1-dimensional slice: summing over offsets into `[r0, r1)`
equals the sum over the whole range restricted to that window. -/
theorem sum_slice (n r0 r1 : ℕ) (hr : r1 ≤ n) (f : ℕ → ℚ) :
    ∑ i ∈ Finset.range (r1 - r0), f (r0 + i) =
      ∑ y ∈ Finset.range n, if r0 ≤ y ∧ y < r1 then f y else 0 := by
  rw [← Finset.sum_Ico_eq_sum_range, ← Finset.sum_filter]
  congr 1
  ext y
  simp only [Finset.mem_filter, Finset.mem_range, Finset.mem_Ico]
  omega

/-- C6: on an image with both dimensions above 10, the sampler returns the
per-channel mean of the black-level-subtracted values over the centered
region of rows `⌊0.4 h⌋ ≤ y < ⌊0.6 h⌋` and columns `⌊0.4 w⌋ ≤ x < ⌊0.6 w⌋`;
otherwise it returns the mean over the full frame. -/
theorem c6_roi_mean (h w : ℕ) (img : ℕ → ℕ → Fin 3 → ℚ) (black : ℚ)
    (ch : Fin 3) :
    (10 < h → 10 < w →
      get_roi_average h w img black ch =
        (∑ y ∈ Finset.range h, ∑ x ∈ Finset.range w,
          if 2 * h / 5 ≤ y ∧ y < 3 * h / 5 ∧ 2 * w / 5 ≤ x ∧ x < 3 * w / 5
          then img y x ch - black else 0) /
          (((3 * h / 5 - 2 * h / 5) * (3 * w / 5 - 2 * w / 5) : ℕ) : ℚ)) ∧
    (¬ (10 < h ∧ 10 < w) →
      get_roi_average h w img black ch =
        (∑ y ∈ Finset.range h, ∑ x ∈ Finset.range w, (img y x ch - black)) /
          ((h * w : ℕ) : ℚ)) := by
  constructor
  · intro hh hw
    simp only [get_roi_average, meanImg]
    rw [if_pos ⟨hh, hw⟩]
    congr 1
    rw [sum_slice h (2 * h / 5) (3 * h / 5) (by omega)
      (fun y => ∑ x ∈ Finset.range (3 * w / 5 - 2 * w / 5),
        (img y (2 * w / 5 + x) ch - black))]
    refine Finset.sum_congr rfl fun y _ => ?_
    by_cases hy : 2 * h / 5 ≤ y ∧ y < 3 * h / 5
    · rw [if_pos hy,
        sum_slice w (2 * w / 5) (3 * w / 5) (by omega)
          (fun x => img y x ch - black)]
      refine Finset.sum_congr rfl fun x _ => ?_
      simp [hy.1, hy.2]
    · rw [if_neg hy]
      refine (Finset.sum_eq_zero fun x _ => ?_).symm
      rw [if_neg fun hcon => hy ⟨hcon.1, hcon.2.1⟩]
    · exact (Nat.cast_mul _ _).symm
  · intro hnot
    simp only [get_roi_average, meanImg]
    rw [if_neg hnot, Nat.cast_mul]

/-- Witness for C6 on a concrete 12 by 12 constant image. -/
theorem c6_witness :
    get_roi_average 12 12 (fun _ _ _ => 7) 0 0 =
      (∑ y ∈ Finset.range 12, ∑ x ∈ Finset.range 12,
        if 2 * 12 / 5 ≤ y ∧ y < 3 * 12 / 5 ∧ 2 * 12 / 5 ≤ x ∧ x < 3 * 12 / 5
        then (fun _ _ _ => (7 : ℚ)) y x (0 : Fin 3) - 0 else 0) /
        (((3 * 12 / 5 - 2 * 12 / 5) * (3 * 12 / 5 - 2 * 12 / 5) : ℕ) : ℚ) :=
  (c6_roi_mean 12 12 (fun _ _ _ => 7) 0 0).1 (by omega) (by omega)

/-! ### C2: the per-pixel correction -/

/-- Clipped values are bounded by the sensor range. -/
theorem clip_le (q : ℚ) : clip q ≤ 65535 :=
  max_le (by norm_num) (min_le_right _ _)

/-- The 16-bit cast of a value known to be at most 65535 is at most 65535. -/
theorem toU16_le (q : ℚ) (h : q ≤ 65535) : toU16 q ≤ 65535 := by
  unfold toU16
  rw [Int.toNat_le]
  exact le_trans (Int.floor_mono h) (by norm_num)

/-- C2: at every in-bounds pixel, the corrected image's channel `i` equals
the weighted sum over input channels `j` of `M i j` times the
black-level-subtracted input, clipped to `[0, 65535]` and cast to 16-bit
unsigned (so in particular the result is at most 65535). -/
theorem c2_process_pixel (h w : ℕ) (M : Mat3) (black : ℚ)
    (img : ℕ → ℕ → Fin 3 → ℚ) (y x : ℕ) (i : Fin 3)
    (hy : y < h) (hx : x < w) :
    process_image h w M black img y x i =
      toU16 (clip (∑ j : Fin 3, M i j * (img y x j - black))) ∧
    process_image h w M black img y x i ≤ 65535 := by
  have hw0 : 0 < w := lt_of_le_of_lt (Nat.zero_le x) hx
  have hdiv : (y * w + x) / w = y := by
    rw [Nat.add_comm, Nat.add_mul_div_right x y hw0, Nat.div_eq_of_lt hx,
      Nat.zero_add]
  have hmod : (y * w + x) % w = x := by
    rw [Nat.add_comm, Nat.add_mul_mod_self_right, Nat.mod_eq_of_lt hx]
  constructor
  · simp only [process_image]
    rw [hdiv, hmod]
    congr 2
    exact Finset.sum_congr rfl fun j _ => mul_comm _ _
  · exact toU16_le _ (clip_le _)

/-- Witness for C2 on a concrete 1 by 2 image under the identity matrix. -/
theorem c2_witness :
    process_image 1 2 cachedM0 0 (fun _ _ _ => 3) 0 1 0 =
      toU16 (clip (∑ j : Fin 3,
        cachedM0 0 j * ((fun _ _ _ => (3 : ℚ)) 0 1 j - 0))) ∧
    process_image 1 2 cachedM0 0 (fun _ _ _ => 3) 0 1 0 ≤ 65535 :=
  c2_process_pixel 1 2 cachedM0 0 (fun _ _ _ => 3) 0 1 0 (by omega) (by omega)

/-! ### C10: the contact-sheet layout -/

/-- The accumulator of the running maximum never decreases. -/
theorem le_foldl_max (f : Tile → ℕ) (l : List Tile) (a : ℕ) :
    a ≤ l.foldl (fun m t => max m (f t)) a := by
  induction l generalizing a with
  | nil => exact le_refl a
  | cons t rest ih => exact le_trans (le_max_left a (f t)) (ih (max a (f t)))

/-- Every list element is bounded by the folded maximum. -/
theorem mem_le_foldl_max (f : Tile → ℕ) (l : List Tile) (a : ℕ) :
    ∀ t ∈ l, f t ≤ l.foldl (fun m t => max m (f t)) a := by
  induction l generalizing a with
  | nil => intro t ht; cases ht
  | cons u rest ih =>
    intro t ht
    rcases List.mem_cons.mp ht with rfl | ht
    · exact le_trans (le_max_right a (f t)) (le_foldl_max f rest (max a (f t)))
    · exact ih (max a (f u)) t ht

/-- Every tile fits horizontally in a cell of the canvas grid. -/
theorem w_le_maxWList (ts : List Tile) : ∀ t ∈ ts, t.w ≤ maxWList ts :=
  mem_le_foldl_max (fun t => t.w) ts 0

/-- Every tile fits vertically in a cell of the canvas grid. -/
theorem h_le_maxHList (ts : List Tile) : ∀ t ∈ ts, t.h ≤ maxHList ts :=
  mem_le_foldl_max (fun t => t.h) ts 0

/-- Every member of the placement list is some tile of the input placed at
the cell of its enumeration index. -/
theorem mem_placeList {mw mh : ℕ} : ∀ (l : List Tile) (k0 : ℕ)
    (p : Tile × ℕ × ℕ), p ∈ placeList mw mh k0 l →
    ∃ j t, l[j]? = some t ∧
      p = (t, (k0 + j) % 6 * mw, (k0 + j) / 6 * mh) := by
  intro l
  induction l with
  | nil => intro k0 p hp; cases hp
  | cons u rest ih =>
    intro k0 p hp
    rcases List.mem_cons.mp hp with rfl | hp
    · exact ⟨0, u, List.getElem?_cons_zero, by rw [Nat.add_zero]⟩
    · rcases ih (k0 + 1) p hp with ⟨j, t, hj, hp'⟩
      refine ⟨j + 1, t, by rw [List.getElem?_cons_succ]; exact hj, ?_⟩
      rw [hp']
      have : k0 + 1 + j = k0 + (j + 1) := by omega
      rw [this]

/-- A block-decomposition division fact: an offset below the block size does
not change the block index. -/
theorem block_div {d q n : ℕ} (hn : 0 < n) (hd : d < n) :
    (q * n + d) / n = q := by
  rw [Nat.add_comm, Nat.add_mul_div_right d q hn, Nat.div_eq_of_lt hd,
    Nat.zero_add]

/-- A position covered by the paste region of the tile placed at cell `k`
lies in grid row `k / 6` and grid column `k % 6`. -/
theorem covers_cell {mh mw k y x : ℕ} {t : Tile}
    (hth : t.h ≤ mh) (htw : t.w ≤ mw)
    (hc : covers (t, k % 6 * mw, k / 6 * mh) y x) :
    y / mh = k / 6 ∧ x / mw = k % 6 := by
  obtain ⟨hy1, hy2, hx1, hx2⟩ := hc
  dsimp only at hy1 hy2 hx1 hx2
  have hmh0 : 0 < mh := by omega
  have hmw0 : 0 < mw := by omega
  constructor
  · have h1 : y = k / 6 * mh + (y - k / 6 * mh) := by omega
    have h2 : y - k / 6 * mh < mh := by omega
    calc y / mh = (k / 6 * mh + (y - k / 6 * mh)) / mh := by rw [← h1]
      _ = k / 6 := block_div hmh0 h2
  · have h1 : x = k % 6 * mw + (x - k % 6 * mw) := by omega
    have h2 : x - k % 6 * mw < mw := by omega
    calc x / mw = (k % 6 * mw + (x - k % 6 * mw)) / mw := by rw [← h1]
      _ = k % 6 := block_div hmw0 h2

/-- Pasting a list of placed tiles none of which covers a position leaves
that position at its base value. -/
theorem pasteAll_not_covered : ∀ (l : List (Tile × ℕ × ℕ))
    (base : ℕ → ℕ → Fin 3 → ℕ) (y x : ℕ) (ch : Fin 3),
    (∀ p ∈ l, ¬ covers p y x) → pasteAll l base y x ch = base y x ch := by
  intro l
  induction l with
  | nil => intro base y x ch _; rfl
  | cons p rest ih =>
    intro base y x ch hnc
    have hstep : pasteAll (p :: rest) base = pasteAll rest (pasteOne base p) :=
      rfl
    rw [hstep, ih _ y x ch fun q hq => hnc q (List.mem_cons_of_mem p hq)]
    unfold pasteOne
    rw [if_neg (hnc p (List.mem_cons_self p rest))]

/-- The key positional property of the sequential paste: inside the paste
region of the tile with (absolute) enumeration index `k0 + j`, the canvas
shows exactly that tile's pixels — later pastes never overwrite it because
distinct indices occupy distinct grid cells. -/
theorem pasteAll_place (mw mh : ℕ) :
    ∀ (l : List Tile) (k0 j : ℕ) (t : Tile) (base : ℕ → ℕ → Fin 3 → ℕ)
      (dy dx : ℕ) (ch : Fin 3),
      (∀ u ∈ l, u.h ≤ mh ∧ u.w ≤ mw) →
      l[j]? = some t → dy < t.h → dx < t.w →
      pasteAll (placeList mw mh k0 l) base
        ((k0 + j) / 6 * mh + dy) ((k0 + j) % 6 * mw + dx) ch =
        t.pix dy dx ch := by
  intro l
  induction l with
  | nil =>
    intro k0 j t base dy dx ch _ hj
    rw [List.getElem?_nil] at hj
    cases hj
  | cons u rest ih =>
    intro k0 j t base dy dx ch hfit hj hdy hdx
    have hstep : pasteAll (placeList mw mh k0 (u :: rest)) base =
        pasteAll (placeList mw mh (k0 + 1) rest)
          (pasteOne base (u, k0 % 6 * mw, k0 / 6 * mh)) := rfl
    cases j with
    | zero =>
      rw [List.getElem?_cons_zero] at hj
      injection hj with hj
      subst hj
      obtain ⟨hth, htw⟩ := hfit u (List.mem_cons_self u rest)
      have hnc : ∀ p ∈ placeList mw mh (k0 + 1) rest,
          ¬ covers p (k0 / 6 * mh + dy) (k0 % 6 * mw + dx) := by
        intro p hp hcov
        rcases mem_placeList rest (k0 + 1) p hp with ⟨j', t'', hj', rfl⟩
        obtain ⟨hth'', htw''⟩ :=
          hfit t'' (List.mem_cons_of_mem u (List.getElem?_mem hj'))
        obtain ⟨hcy, hcx⟩ := covers_cell hth'' htw'' hcov
        have hmh0 : 0 < mh := by omega
        have hmw0 : 0 < mw := by omega
        have hY : (k0 / 6 * mh + dy) / mh = k0 / 6 :=
          block_div hmh0 (by omega)
        have hX : (k0 % 6 * mw + dx) / mw = k0 % 6 :=
          block_div hmw0 (by omega)
        rw [hY] at hcy
        rw [hX] at hcx
        omega
      have hcov : covers (u, k0 % 6 * mw, k0 / 6 * mh)
          (k0 / 6 * mh + dy) (k0 % 6 * mw + dx) := by
        refine ⟨?_, ?_, ?_, ?_⟩ <;> dsimp only <;> omega
      rw [Nat.add_zero, hstep, pasteAll_not_covered _ _ _ _ _ hnc]
      unfold pasteOne
      rw [if_pos hcov]
      dsimp only
      rw [Nat.add_sub_cancel_left, Nat.add_sub_cancel_left]
    | succ j' =>
      rw [List.getElem?_cons_succ] at hj
      have harith : k0 + (j' + 1) = k0 + 1 + j' := by omega
      rw [harith, hstep]
      exact ih (k0 + 1) j' t _ dy dx ch
        (fun v hv => hfit v (List.mem_cons_of_mem u hv)) hj hdy hdx

/-- C10: for a sequence of at least two downsampled tiles, the contact sheet
is a canvas of width `6 * maxTileWidth` and height
`ceil(n / 6) * maxTileHeight`; tile `k` appears top-left-aligned in cell
(row `k / 6`, column `k % 6`) in enumeration order, and every position not
covered by any tile's paste region holds the zero fill. -/
theorem c10_contact_sheet (ts : List Tile) (hn : 2 ≤ ts.length) :
    (create_contact_sheet ts).w = 6 * maxWList ts ∧
    (create_contact_sheet ts).h = (ts.length + 5) / 6 * maxHList ts ∧
    (∀ (k : ℕ) (t : Tile), ts[k]? = some t →
      ∀ (dy dx : ℕ) (ch : Fin 3), dy < t.h → dx < t.w →
        (create_contact_sheet ts).pix (k / 6 * maxHList ts + dy)
          (k % 6 * maxWList ts + dx) ch = t.pix dy dx ch) ∧
    (∀ (y x : ℕ) (ch : Fin 3),
      (∀ (k : ℕ) (t : Tile), ts[k]? = some t →
        ¬ covers (t, k % 6 * maxWList ts, k / 6 * maxHList ts) y x) →
      (create_contact_sheet ts).pix y x ch = 0) := by
  refine ⟨rfl, rfl, ?_, ?_⟩
  · intro k t hk dy dx ch hdy hdx
    have h := pasteAll_place (maxWList ts) (maxHList ts) ts 0 k t
      (fun _ _ _ => 0) dy dx ch
      (fun u hu => ⟨h_le_maxHList ts u hu, w_le_maxWList ts u hu⟩) hk hdy hdx
    rw [Nat.zero_add] at h
    exact h
  · intro y x ch hnc
    refine pasteAll_not_covered _ _ y x ch ?_
    intro p hp
    rcases mem_placeList ts 0 p hp with ⟨j, t, hj, rfl⟩
    have h := hnc j t hj
    rw [Nat.zero_add]
    exact h

/-- A concrete 1 by 1 tile with constant value 7. -/
def tileA : Tile := { h := 1, w := 1, pix := fun _ _ _ => 7 }

/-- A concrete 1 by 1 tile with constant value 9. -/
def tileB : Tile := { h := 1, w := 1, pix := fun _ _ _ => 9 }

/-- Witness for C10 on a concrete two-tile sheet: the first tile's pixel is
found at the first cell. -/
theorem c10_witness :
    (create_contact_sheet [tileA, tileB]).pix
      (0 / 6 * maxHList [tileA, tileB] + 0)
      (0 % 6 * maxWList [tileA, tileB] + 0) 0 = tileA.pix 0 0 0 :=
  (c10_contact_sheet [tileA, tileB] (by decide)).2.2.1 0 tileA rfl 0 0 0
    (by decide) (by decide)

end LSD
